import Mathlib

/-!
Verification of the link-resolution engine of the `enex2notion` repository.

The definitions below are a shallow embedding of the Python sources
`enex2notion/link_resolver.py` and `enex2notion/cli_resolve_links.py`.
Strings are modelled as `List Char`; Python dicts describing rich-text
items are modelled as an inductive `RichElem`; the Python falsy empty
annotations dict is modelled by `AnnDict.empty` (so that, as in Python,
the literal empty dict is not equal to the populated default-annotations
dict built by `_make_text`).
-/

namespace Enex

/-- Notion's character limit per rich_text element (`MAX_RICH_TEXT_LENGTH`). -/
def MAX_RICH_TEXT_LENGTH : Nat := 2000

/-- Safety threshold on characters per block (`SAFE_CHAR_PER_BLOCK`). -/
def SAFE_CHAR_PER_BLOCK : Nat := 1800

/-- Safety threshold on elements per block (`SAFE_ELEMS_PER_BLOCK`). -/
def SAFE_ELEMS_PER_BLOCK : Nat := 80

/-- The six boolean/color fields of a populated Notion annotations dict. -/
structure AnnFields where
  bold : Bool
  italic : Bool
  strikethrough : Bool
  underline : Bool
  code : Bool
  color : List Char
deriving DecidableEq, Repr

/-- A Python annotations value: either the falsy empty dict `{}` (or `None`),
or a populated dict.  In Python `{} != {"bold": False, ...}`, which this
two-constructor model preserves. -/
inductive AnnDict where
  | empty : AnnDict
  | mk (fields : AnnFields) : AnnDict
deriving DecidableEq, Repr

/-- The default annotations built by `_make_text` / `_make_inline_link`. -/
def defaultAnnFields : AnnFields :=
  ⟨false, false, false, false, false, "default".toList⟩

/-- Python `annotations or {...default...}`: the falsy empty dict is replaced
by the default annotations dict. -/
def orDefault : AnnDict → AnnDict
  | AnnDict.empty => AnnDict.mk defaultAnnFields
  | a => a

/-- A text rich_text item: `{"type": "text", "text": {"content", "link"},
"annotations", ["href"], ["plain_text"]}`.  `href = []` models a missing or
null href; `plainText = none` models a missing plain_text key. -/
structure TextElem where
  content : List Char
  link : Option (List Char)
  href : List Char
  plainText : Option (List Char)
  ann : AnnDict
deriving DecidableEq, Repr

/-- A rich_text array element: a text item, a page mention
(`_make_inline_link` output), or some other non-text item (opaque). -/
inductive RichElem where
  | text (t : TextElem) : RichElem
  | mention (pageId : List Char) (ann : AnnDict) : RichElem
  | other (tag : Nat) (ann : AnnDict) : RichElem
deriving DecidableEq, Repr

/-- `_make_text(content, annotations)`. -/
def mkText (content : List Char) (ann : AnnDict) : RichElem :=
  RichElem.text ⟨content, none, [], none, orDefault ann⟩

/-- `_make_inline_link(note_name, target_page_id, annotations)`: a page
mention element. -/
def mkMention (targetPageId : List Char) (ann : AnnDict) : RichElem :=
  RichElem.mention targetPageId (orDefault ann)

/-- Text content carried by an element (`""` for non-text elements). -/
def elemContent : RichElem → List Char
  | RichElem.text t => t.content
  | _ => []

/-- Length of the text content of an element. -/
def elemContentLength (e : RichElem) : Nat := (elemContent e).length

/-- Python `content.split(" ")`: split on every single space character,
keeping empty pieces (so `"".split(" ") = [""]`). -/
def splitOnSpace : List Char → List (List Char)
  | [] => [[]]
  | c :: rest =>
    if c = ' ' then [] :: splitOnSpace rest
    else
      match splitOnSpace rest with
      | w :: ws => (c :: w) :: ws
      | [] => [[c]]

/-- The word loop of `_split_text_if_needed`: greedily build chunks from the
space-separated words, force-cutting a word only when the current chunk is
empty.  `cur` is Python's `current_chunk`. -/
def splitWordsLoop : List (List Char) → List Char → List (List Char)
  | [], cur => if cur = [] then [] else [cur]
  | w :: ws, cur =>
    let test := if cur = [] then w else cur ++ ' ' :: w
    if test.length > MAX_RICH_TEXT_LENGTH then
      if cur = [] then
        w.take MAX_RICH_TEXT_LENGTH :: splitWordsLoop ws (w.drop MAX_RICH_TEXT_LENGTH)
      else
        cur :: splitWordsLoop ws w
    else
      splitWordsLoop ws test

/-- `_split_text_if_needed(content, annotations)`. -/
def splitTextIfNeeded (content : List Char) (ann : AnnDict) : List RichElem :=
  if content.length ≤ MAX_RICH_TEXT_LENGTH then [mkText content ann]
  else (splitWordsLoop (splitOnSpace content) []).map (fun c => mkText c ann)

/-- `_split_all_oversized_elements(rich_text_array)`: split oversized plain
text elements; keep non-text elements, and keep oversized text elements that
carry a hyperlink, unchanged. -/
def splitAllOversized : List RichElem → List RichElem
  | [] => []
  | e :: rest =>
    (match e with
     | RichElem.text t =>
       if t.content.length ≤ MAX_RICH_TEXT_LENGTH then [e]
       else
         match t.link with
         | some _ => [e]
         | none => splitTextIfNeeded t.content t.ann
     | _ => [e]) ++ splitAllOversized rest

/-- The literal `evernote` scheme prefix of the link regexes. -/
def evernoteLit : List Char := "evernote".toList

/-- The punctuation part of the URL character class of
`MARKDOWN_LINK_PATTERN` and `EVERNOTE_URL_PATTERN`
(`- . _ ~ : / ? # [ ] @ ! $ & apostrophe ( ) * + , ; = %`). -/
def urlPunct : List Char :=
  ['-', '.', '_', '~', ':', '/', '?', '#', '[', ']', '@', '!', '$', '&',
   Char.ofNat 39, '(', ')', '*', '+', ',', ';', '=', '%']

/-- Membership in the regex character class
`[a-zA-Z0-9]` plus `urlPunct` (the class used after the `evernote` literal). -/
def isUrlChar (c : Char) : Bool :=
  (c.isAlpha || c.isDigit) || urlPunct.contains c

/-- Split a list at its last `')'`: `splitLastRParen run = some (a, b)` iff
`run = a ++ ')' :: b` with no `')'` in `b`.  This models the backtracking of
the greedy URL group of the markdown-link regex: since `')'` belongs to the
URL character class, the regex engine backs the group up to the last `')'`
of the maximal class run. -/
def splitLastRParen : List Char → Option (List Char × List Char)
  | [] => none
  | c :: rest =>
    match splitLastRParen rest with
    | some (a, b) => some (c :: a, b)
    | none => if c = ')' then some ([], rest) else none

theorem splitLastRParen_eq :
    ∀ (run a b : List Char), splitLastRParen run = some (a, b) →
      run = a ++ ')' :: b := by
  intro run
  induction run with
  | nil => intro a b h; simp [splitLastRParen] at h
  | cons c rest ih =>
    intro a b h
    simp only [splitLastRParen] at h
    cases hr : splitLastRParen rest with
    | some p =>
      obtain ⟨a0, b0⟩ := p
      rw [hr] at h
      simp only [Option.some.injEq, Prod.mk.injEq] at h
      obtain ⟨h1, h2⟩ := h
      subst h1
      subst h2
      rw [ih a0 b0 hr]
      simp
    | none =>
      rw [hr] at h
      by_cases hc : c = ')'
      · rw [if_pos hc] at h
        simp only [Option.some.injEq, Prod.mk.injEq] at h
        obtain ⟨h1, h2⟩ := h
        subst h1
        subst h2
        rw [hc]
        simp
      · rw [if_neg hc] at h
        simp at h

/-- Attempt to match the markdown-link pattern
`\[([^\]]*)\]\((evernote[urlclass]*)\)` at the start of `s`.  On success
returns `(note_name, url, rest_after_match)`.  The `[^\]]*` group is the run
up to the first `']'` (it cannot cross one); the URL group is the maximal
`isUrlChar` run after the `evernote` literal, backed up to its last `')'`
(regex backtracking, since `')'` is itself in the class). -/
def matchMdAt (s : List Char) : Option (List Char × List Char × List Char) :=
  match s with
  | [] => none
  | c :: rest =>
    if c = '[' then
      match rest.drop (rest.takeWhile (fun x => x ≠ ']')).length with
      | [] => none
      | d :: rest1 =>
        if d = ']' then
          match rest1 with
          | [] => none
          | e :: rest2 =>
            if e = '(' then
              if rest2.take 8 = evernoteLit then
                match splitLastRParen ((rest2.drop 8).takeWhile isUrlChar) with
                | some (a, b) =>
                  some (rest.takeWhile (fun x => x ≠ ']'), evernoteLit ++ a,
                    b ++ (rest2.drop 8).drop
                      ((rest2.drop 8).takeWhile isUrlChar).length)
                | none => none
              else none
            else none
        else none
    else none

theorem takeWhile_drop_eq {p : Char → Bool} {l t : List Char}
    (h : l.drop (l.takeWhile p).length = t) : l = l.takeWhile p ++ t := by
  obtain ⟨u, hu⟩ := List.takeWhile_prefix (l := l) p
  have h2 : (l.takeWhile p ++ u).drop (l.takeWhile p).length = u :=
    List.drop_left _ _
  rw [hu] at h2
  rw [← h, h2]
  exact hu.symm

/-- A successful `matchMdAt` decomposes the input as
`"[" ++ name ++ "](" ++ url ++ ")" ++ rest`: the matched substring is
exactly the markdown link text, and `rest` is what follows it. -/
theorem matchMdAt_eq (s n u a : List Char)
    (h : matchMdAt s = some (n, u, a)) :
    s = '[' :: n ++ ']' :: '(' :: u ++ ')' :: a := by
  cases s with
  | nil => exact Option.noConfusion h
  | cons c rest =>
    unfold matchMdAt at h
    dsimp only at h
    split at h
    next hc =>
      subst hc
      have hrest : rest = rest.takeWhile (fun x => x ≠ ']') ++
          rest.drop (rest.takeWhile (fun x => x ≠ ']')).length :=
        takeWhile_drop_eq rfl
      split at h
      next => exact Option.noConfusion h
      next d rest1 hd =>
        split at h
        next hdd =>
          subst hdd
          split at h
          next => exact Option.noConfusion h
          next e rest2 =>
            split at h
            next he =>
              subst he
              split at h
              next hev =>
                split at h
                next pa pb hsp =>
                  simp only [Option.some.injEq, Prod.mk.injEq] at h
                  obtain ⟨h1, h2, h3⟩ := h
                  have hrun : (rest2.drop 8).takeWhile isUrlChar =
                      pa ++ ')' :: pb := splitLastRParen_eq _ pa pb hsp
                  have hr2a : rest2.drop 8 =
                      ((rest2.drop 8).takeWhile isUrlChar) ++
                      (rest2.drop 8).drop
                        ((rest2.drop 8).takeWhile isUrlChar).length :=
                    takeWhile_drop_eq rfl
                  have hr2 : rest2 = rest2.take 8 ++ rest2.drop 8 :=
                    (List.take_append_drop 8 rest2).symm
                  rw [hrest, hd]
                  rw [hr2, hev]
                  conv_lhs => rw [hr2a, hrun]
                  rw [← h1, ← h2, ← h3]
                  simp only [List.cons_append, List.append_assoc, List.nil_append,
                    List.cons.injEq, true_and]
                  rw [hrun]
                next => exact Option.noConfusion h
              next => exact Option.noConfusion h
            next => exact Option.noConfusion h
        next => exact Option.noConfusion h
    next => exact Option.noConfusion h

/-- The remainder returned by a successful match is strictly shorter than the
input. -/
theorem matchMdAt_lt (s n u a : List Char)
    (h : matchMdAt s = some (n, u, a)) : a.length < s.length := by
  have he := matchMdAt_eq s n u a h
  rw [he]
  simp [List.length_append]
  omega

/-- A segment of a text scanned for markdown links: either a run of plain
text between matches, or one matched link `[name](url)`. -/
inductive Seg where
  | plain (s : List Char) : Seg
  | link (name url : List Char) : Seg
deriving DecidableEq, Repr

/-- The scanning loop of `re.finditer(markdown_pattern, text)` (as used by
`_tokenize_rich_text_items`): at each position try a match; on success emit
the pending plain run (if non-empty) and the link, and continue after the
match; otherwise advance one character.  `acc` is the pending plain run,
reversed. -/
def mdScanAux (acc : List Char) (s : List Char) : List Seg :=
  match s with
  | [] => if acc = [] then [] else [Seg.plain acc.reverse]
  | c :: rest =>
    match hm : matchMdAt (c :: rest) with
    | some (n, u, after) =>
      (if acc = [] then [] else [Seg.plain acc.reverse]) ++
        Seg.link n u :: mdScanAux [] after
    | none => mdScanAux (c :: acc) rest
termination_by s.length
decreasing_by
  · exact matchMdAt_lt _ _ _ _ hm
  · simp

/-- Segmentation of a text by the non-overlapping markdown-link matches. -/
def mdScan (s : List Char) : List Seg := mdScanAux [] s

/-- The list of `(note_name, url)` pairs of all non-overlapping matches of
the markdown pattern, in order (`re.finditer` as used by
`_scan_block_for_links`). -/
def mdFinditer (s : List Char) : List (List Char × List Char) :=
  (mdScan s).filterMap fun sg =>
    match sg with
    | Seg.link n u => some (n, u)
    | Seg.plain _ => none

/-- `re.search(markdown_pattern, content)` (as used by
`_convert_text_with_all_links` and `MARKDOWN_LINK_PATTERN.search`): the
leftmost match, decomposed as `(text_before, note_name, url, text_after)`. -/
def searchMd : List Char → Option (List Char × List Char × List Char × List Char)
  | [] => none
  | c :: rest =>
    match matchMdAt (c :: rest) with
    | some (n, u, after) => some ([], n, u, after)
    | none =>
      match searchMd rest with
      | some (p, n, u, after) => some (c :: p, n, u, after)
      | none => none

/-- The suffix returned by `searchMd` is strictly shorter than the input. -/
theorem searchMd_lt :
    ∀ (s p n u a : List Char), searchMd s = some (p, n, u, a) →
      a.length < s.length := by
  intro s
  induction s with
  | nil => intro p n u a h; simp [searchMd] at h
  | cons c rest ih =>
    intro p n u a h
    simp only [searchMd] at h
    cases hm : matchMdAt (c :: rest) with
    | some r =>
      obtain ⟨n0, u0, a0⟩ := r
      rw [hm] at h
      simp only [Option.some.injEq, Prod.mk.injEq] at h
      obtain ⟨h1, h2, h3, h4⟩ := h
      subst h4
      exact matchMdAt_lt _ _ _ _ (by rw [hm, h2, h3])
    | none =>
      rw [hm] at h
      cases hs : searchMd rest with
      | some r =>
        obtain ⟨p0, n0, u0, a0⟩ := r
        rw [hs] at h
        simp only [Option.some.injEq, Prod.mk.injEq] at h
        obtain ⟨h1, h2, h3, h4⟩ := h
        subst h4
        have := ih p0 n0 u0 a0 (by rw [hs])
        simp only [List.length_cons]
        omega
      | none => rw [hs] at h; exact Option.noConfusion h

/-- A token of `_tokenize_rich_text_items`: either
`{"type": "text", "content", "annotations", "is_link"}` or
`{"type": "other", "item": original_non_text_item}`. -/
inductive Token where
  | text (content : List Char) (ann : AnnDict) (isLink : Bool) : Token
  | other (item : RichElem) : Token
deriving DecidableEq, Repr

/-- `len(tok.get("content", ""))` for text tokens, `0` otherwise. -/
def tokTextLen : Token → Nat
  | Token.text c _ _ => c.length
  | Token.other _ => 0

/-- `tok.get("is_link", False)`. -/
def tokIsLink : Token → Bool
  | Token.text _ _ l => l
  | Token.other _ => false

/-- Text content carried by a token.  An `other` token wraps a non-text
item, whose `elemContent` is empty; this is used to state content
preservation of the build/merge pass. -/
def tokText : Token → List Char
  | Token.text c _ _ => c
  | Token.other e => elemContent e

/-- The matched substring `text[m.start():m.end()]` of one markdown match:
`"[" ++ name ++ "](" ++ url ++ ")"`. -/
def mdMatchedText (name url : List Char) : List Char :=
  '[' :: name ++ ']' :: '(' :: url ++ ')' :: []

/-- `_tokenize_rich_text_items` on one item: a non-text item becomes one
`other` token; a text item is cut at the markdown-link matches, with the
matched substrings marked `is_link=True`. -/
def tokenizeItem : RichElem → List Token
  | RichElem.text t =>
    (mdScan t.content).map fun sg =>
      match sg with
      | Seg.plain s => Token.text s t.ann false
      | Seg.link n u => Token.text (mdMatchedText n u) t.ann true
  | e => [Token.other e]

/-- `_tokenize_rich_text_items(rich_text_array)`. -/
def tokenizeRichText (rt : List RichElem) : List Token :=
  (rt.map tokenizeItem).flatten

/-- The chunk loop of `_pack_tokens_into_chunks`: `cur` is the current
chunk, `curChars`/`curElems` its running character and element counts. -/
def packLoop (charLimit elemLimit : Nat) :
    List Token → List Token → Nat → Nat → List (List Token)
  | [], cur, _, _ => if cur = [] then [] else [cur]
  | tok :: rest, cur, curChars, curElems =>
    if tokIsLink tok ∧ tokTextLen tok > charLimit then
      (if cur = [] then [] else [cur]) ++
        [tok] :: packLoop charLimit elemLimit rest [] 0 0
    else if cur ≠ [] ∧ (curChars + tokTextLen tok > charLimit ∨
        curElems + 1 > elemLimit) then
      cur :: packLoop charLimit elemLimit rest [tok] (tokTextLen tok) 1
    else
      packLoop charLimit elemLimit rest (cur ++ [tok])
        (curChars + tokTextLen tok) (curElems + 1)

/-- `_pack_tokens_into_chunks(tokens, char_limit, elem_limit)`. -/
def packTokens (tokens : List Token)
    (charLimit : Nat := SAFE_CHAR_PER_BLOCK)
    (elemLimit : Nat := SAFE_ELEMS_PER_BLOCK) : List (List Token) :=
  packLoop charLimit elemLimit tokens [] 0 0

/-- The `append_text` helper of `_build_rich_text_from_tokens`: extend the
last element if it is a text element with the same annotations and the
combined content stays within `MAX_RICH_TEXT_LENGTH`; otherwise append a
fresh `_make_text` element. -/
def appendTextElem : List RichElem → List Char → AnnDict → List RichElem
  | [], c, a => [mkText c a]
  | [e], c, a =>
    (match e with
     | RichElem.text t =>
       if t.ann = a ∧ t.content.length + c.length ≤ MAX_RICH_TEXT_LENGTH then
         [RichElem.text ⟨t.content ++ c, t.link, t.href, t.plainText, t.ann⟩]
       else [e, mkText c a]
     | _ => [e, mkText c a])
  | e :: e2 :: es, c, a => e :: appendTextElem (e2 :: es) c a

/-- The element loop of `_build_rich_text_from_tokens`. -/
def buildLoop : List Token → List RichElem → List RichElem
  | [], elems => elems
  | Token.other item :: rest, elems => buildLoop rest (elems ++ [item])
  | Token.text c a _ :: rest, elems => buildLoop rest (appendTextElem elems c a)

/-- `_build_rich_text_from_tokens(tokens)`. -/
def buildRichText (tokens : List Token) : List RichElem :=
  buildLoop tokens []

/-- Concatenated text content of a rich_text array, in order. -/
def elemsText (l : List RichElem) : List Char :=
  (l.map elemContent).flatten

/-- Concatenated text content of a token list, in order. -/
def toksText (l : List Token) : List Char :=
  (l.map tokText).flatten

/-- `absorb` models the inner while-loop of `_consolidate_adjacent_text`:
starting from the current merged content, keep absorbing following text
elements with the same annotations while the merged length stays within
`MAX_RICH_TEXT_LENGTH`; stop at the first element that cannot be absorbed.
Returns the merged content and the unconsumed remainder. -/
def absorb (content : List Char) (ann : AnnDict) :
    List RichElem → List Char × List RichElem
  | [] => (content, [])
  | e :: rest =>
    match e with
    | RichElem.text t =>
      if t.ann = ann ∧ content.length + t.content.length ≤ MAX_RICH_TEXT_LENGTH
      then absorb (content ++ t.content) ann rest
      else (content, e :: rest)
    | _ => (content, e :: rest)

theorem absorb_len (content : List Char) (ann : AnnDict) :
    ∀ (l : List RichElem), (absorb content ann l).2.length ≤ l.length := by
  intro l
  induction l generalizing content with
  | nil => simp [absorb]
  | cons e rest ih =>
    cases e with
    | text t =>
      simp only [absorb]
      by_cases hc : t.ann = ann ∧
          content.length + t.content.length ≤ MAX_RICH_TEXT_LENGTH
      · rw [if_pos hc]
        have := ih (content ++ t.content)
        simp only [List.length_cons]
        omega
      · rw [if_neg hc]
    | mention p a => simp [absorb]
    | other g a => simp [absorb]

/-- `_consolidate_adjacent_text(elements)`: merge runs of adjacent text
elements with identical annotations up to the character limit.  The merged
element is a copy of the first element of the run with its `text` dict
replaced (so `link` is reset to `None`); non-text elements pass through. -/
def consolidate : List RichElem → List RichElem
  | [] => []
  | e :: rest =>
    match e with
    | RichElem.text t =>
      RichElem.text
          ⟨(absorb t.content t.ann rest).1, none, t.href, t.plainText, t.ann⟩
        :: consolidate (absorb t.content t.ann rest).2
    | _ => e :: consolidate rest
termination_by l => l.length
decreasing_by
  · have := absorb_len t.content t.ann rest
    simp only [List.length_cons]
    omega
  · simp

/-- A lookup table modelling the Python dict `link_lookup`
(`normalized link text -> target page id or None`), as an insertion-ordered
association list.  `lookupGet` is `link_lookup.get(key)`: `none` both when
the key is absent and when it maps to Python `None`. -/
def lookupGet (m : List (List Char × Option (List Char)))
    (key : List Char) : Option (List Char) :=
  match m.find? (fun p => p.1 = key) with
  | some p => p.2
  | none => none

/-- Python truthiness of an optional string: `None` and `""` are falsy. -/
def isTruthy : Option (List Char) → Bool
  | some s => s ≠ []
  | none => false

/-- The unresolved marker text built by `_convert_text_with_all_links` and
`_convert_markdown_link`: `"🛑 unresolved: [name](url)"`. -/
def unresolvedMd (name url : List Char) : List Char :=
  "🛑 unresolved: ".toList ++ mdMatchedText name url

/-- `_convert_text_with_all_links(content, annotations, link_lookup)`:
repeatedly take the leftmost markdown match, emit prefix text, a page
mention (resolved) or an unresolved marker, recurse on the suffix, and
consolidate adjacent text elements at each level. -/
def convertTextWithAllLinks (content : List Char) (ann : AnnDict)
    (lookup : List (List Char × Option (List Char))) : List RichElem :=
  match hm : searchMd content with
  | none => splitTextIfNeeded content ann
  | some (pre, name, url, suffix) =>
    consolidate
      ((if pre = [] then [] else splitTextIfNeeded pre ann) ++
       (match lookupGet lookup (name.map Char.toLower) with
        | some tid =>
          if tid = [] then splitTextIfNeeded (unresolvedMd name url) ann
          else [mkMention tid ann]
        | none => splitTextIfNeeded (unresolvedMd name url) ann) ++
       (if suffix = [] then []
        else convertTextWithAllLinks suffix ann lookup))
termination_by content.length
decreasing_by
  exact searchMd_lt _ _ _ _ _ hm

/-- `_convert_markdown_link(content, note_name, target_page_id,
annotations)`: convert only the first markdown link of `content` (the
passed `note_name` is shadowed by the match, as in the source). -/
def convertMarkdownLink (content : List Char) (noteName : List Char)
    (target : Option (List Char)) (ann : AnnDict) : List RichElem :=
  match searchMd content with
  | none => splitTextIfNeeded content ann
  | some (pre, name, url, suffix) =>
    (if pre = [] then [] else splitTextIfNeeded pre ann) ++
    (match target with
     | some tid =>
       if tid = [] then splitTextIfNeeded (unresolvedMd name url) ann
       else [mkMention tid ann]
     | none => splitTextIfNeeded (unresolvedMd name url) ann) ++
    (if suffix = [] then [] else splitTextIfNeeded suffix ann)

/-- `_convert_href_link(note_name, target_page_id, annotations)`. -/
def convertHrefLink (noteName : List Char) (target : Option (List Char))
    (ann : AnnDict) : RichElem :=
  match target with
  | some tid =>
    if tid = [] then mkText ("🛑 unresolved: ".toList ++ noteName) ann
    else mkMention tid ann
  | none => mkText ("🛑 unresolved: ".toList ++ noteName) ann

/-- Pass type of a detected reference (`"markdown"` or `"href"`). -/
inductive PassType where
  | markdown : PassType
  | href : PassType
deriving DecidableEq, Repr

/-- The `LinkReference` dataclass of `link_resolver.py`. -/
structure LinkReference where
  pageId : List Char
  pageTitle : List Char
  blockId : List Char
  blockType : List Char
  linkText : List Char
  originalUrl : List Char
  richTextIndex : Nat
  richTextItem : RichElem
  passType : PassType
deriving DecidableEq, Repr

/-- `EVERNOTE_URL_PATTERN.match(href)` combined with Python truthiness of
`href`: non-empty and starting with the `evernote` literal (the trailing
`[urlclass]*` matches the empty string, so `re.match` succeeds exactly on
such prefixes). -/
def hrefIsEvernote (href : List Char) : Bool :=
  href ≠ [] && href.take 8 = evernoteLit

/-- The per-item body of the scanning loop of `_scan_block_for_links`:
Pass 1 creates one markdown reference per `finditer` match; Pass 2 (the
`elif`) creates a single href reference only when Pass 1 found nothing. -/
def scanItem (pid pt bid bt : List Char) (idx : Nat) :
    RichElem → List LinkReference
  | RichElem.text t =>
    if mdFinditer t.content ≠ [] then
      (mdFinditer t.content).map fun m =>
        ⟨pid, pt, bid, bt, m.1, m.2, idx, RichElem.text t, PassType.markdown⟩
    else if hrefIsEvernote t.href then
      [⟨pid, pt, bid, bt, t.plainText.getD t.content, t.href, idx,
        RichElem.text t, PassType.href⟩]
    else []
  | _ => []

/-- The indexed loop `for idx, rich_text_item in enumerate(rich_text_array)`
of `_scan_block_for_links`, starting at index `i`. -/
def scanFrom (pid pt bid bt : List Char) (i : Nat) :
    List RichElem → List LinkReference
  | [] => []
  | e :: rest =>
    scanItem pid pt bid bt i e ++ scanFrom pid pt bid bt (i + 1) rest

/-- The set `RICH_TEXT_BLOCK_TYPES`. -/
def RICH_TEXT_BLOCK_TYPES : List (List Char) :=
  ["paragraph", "heading_1", "heading_2", "heading_3",
   "bulleted_list_item", "numbered_list_item", "to_do",
   "quote", "callout", "toggle"].map String.toList

/-- A Notion block as far as the resolver inspects it: id, type, its
rich_text array, and whether it has a parent id (page or block). -/
structure Block where
  id : List Char
  btype : List Char
  richText : List RichElem
  hasParent : Bool
deriving DecidableEq, Repr

/-- `_scan_block_for_links(page_id, page_title, block)`. -/
def scanBlockForLinks (pid pt : List Char) (b : Block) : List LinkReference :=
  if RICH_TEXT_BLOCK_TYPES.contains b.btype then
    scanFrom pid pt b.id b.btype 0 b.richText
  else []

/-- Sum of the text content lengths of a rich_text array (`total_chars` in
`needs_normalization`). -/
def textCharSum (rt : List RichElem) : Nat :=
  (rt.map elemContentLength).sum

/-- `needs_normalization(block)`. -/
def needsNormalization (b : Block) : Bool :=
  if ¬ RICH_TEXT_BLOCK_TYPES.contains b.btype then false
  else if b.richText = [] then false
  else if b.richText.any (fun e =>
      match e with
      | RichElem.text t => t.content.length > MAX_RICH_TEXT_LENGTH
      | _ => false) then true
  else if b.richText.length > SAFE_ELEMS_PER_BLOCK then true
  else textCharSum b.richText > SAFE_CHAR_PER_BLOCK

/-- The data path of `normalize_block_to_safe_chunks`: the sequence of
rich_text arrays the function writes back (the first replaces the original
block, the rest are appended as sibling blocks).  `[]` models the
early-return cases (no parent id, no chunks, or a single chunk for a block
that does not need normalization). -/
def normalizeEmittedArrays (b : Block) : List (List RichElem) :=
  if ¬ b.hasParent then []
  else
    (fun chunks =>
      if chunks = [] ∨ (chunks.length = 1 ∧ ¬ needsNormalization b) then []
      else chunks.map (fun ch => splitAllOversized (buildRichText ch)))
    (packTokens (tokenizeRichText b.richText))

/-- Python whitespace characters recognised by `str.split()` (ASCII set;
the NBSP is replaced by a plain space before splitting in `_norm`). -/
def isPyWs (c : Char) : Bool :=
  c = ' ' || c = Char.ofNat 9 || c = Char.ofNat 10 || c = Char.ofNat 13 ||
  c = Char.ofNat 11 || c = Char.ofNat 12

/-- `s.split()` (no separator): split on runs of whitespace, discarding
empty pieces.  `acc` is the current word, reversed. -/
def splitWsAux (acc : List Char) : List Char → List (List Char)
  | [] => if acc = [] then [] else [acc.reverse]
  | c :: rest =>
    if isPyWs c then
      (if acc = [] then [] else [acc.reverse]) ++ splitWsAux [] rest
    else splitWsAux (c :: acc) rest

/-- `" ".join(words)`. -/
def joinSpaces : List (List Char) → List Char
  | [] => []
  | [w] => w
  | w :: ws => w ++ ' ' :: joinSpaces ws

/-- The `_norm` helper of `cli_resolve_links.py`: NBSP to space, collapse
whitespace, then casefold.  Casefolding is modelled character-wise by
`Char.toLower`. -/
def norm (s : List Char) : List Char :=
  if s = [] then []
  else
    (joinSpaces (splitWsAux []
      (s.map (fun c => if c = Char.ofNat 160 then ' ' else c)))).map
      Char.toLower

/-- The normalized-title index `title_to_ids_ci`: an insertion-ordered map
from `norm(title or "")` to the list of `(page_id, title)` pairs.  The
registry `idToTitle` is itself an insertion-ordered association list
(titles may be missing/None, modelled as `Option`). -/
def indexInsert (idx : List (List Char × List (List Char × Option (List Char))))
    (key : List Char) (entry : List Char × Option (List Char)) :
    List (List Char × List (List Char × Option (List Char))) :=
  match idx with
  | [] => [(key, [entry])]
  | (k, v) :: rest =>
    if k = key then (k, v ++ [entry]) :: rest
    else (k, v) :: indexInsert rest key entry

/-- Left fold building `title_to_ids_ci` from the registry entries in
insertion order. -/
def buildIndexAux
    (idx : List (List Char × List (List Char × Option (List Char)))) :
    List (List Char × Option (List Char)) →
    List (List Char × List (List Char × Option (List Char)))
  | [] => idx
  | (pid, title) :: rest =>
    buildIndexAux (indexInsert idx (norm (title.getD [])) (pid, title)) rest

/-- Build `title_to_ids_ci` from the registry
(`title_to_ids_ci.setdefault(_norm(title or ""), []).append((pid, title))`). -/
def buildIndex (reg : List (List Char × Option (List Char))) :
    List (List Char × List (List Char × Option (List Char))) :=
  buildIndexAux [] reg

/-- `title_to_ids_ci.get(key, [])`. -/
def indexGet (idx : List (List Char × List (List Char × Option (List Char))))
    (key : List Char) : List (List Char × Option (List Char)) :=
  match idx.find? (fun p => p.1 = key) with
  | some p => p.2
  | none => []

/-- Modelled from the spec: `validate_target_page(wrapper, target_id,
validation_cache)` is imported from `enex2notion.link_resolver` by
`cli_resolve_links.py` but its definition is not among the sources.  The
spec describes it as "a cached, at-most-once-per-id liveness check against
the destination": on a cache hit the cached verdict is returned without
consulting the destination; on a miss the liveness oracle `live` is called
once and its verdict stored.  The cache is an association list
`target_id -> verdict`. -/
def validate_target_page (live : List Char → Bool)
    (cache : List (List Char × Bool)) (targetId : List Char) :
    Bool × List (List Char × Bool) :=
  match cache.find? (fun p => p.1 = targetId) with
  | some p => (p.2, cache)
  | none => (live targetId, (targetId, live targetId) :: cache)

/-- Outcome of matching one reference against the registry
(the four buckets of the matching loop in `process_page`). -/
inductive MatchOutcome where
  | resolved (targetId : List Char) : MatchOutcome
  | targetMissing (targetId : List Char) (title : Option (List Char)) :
      MatchOutcome
  | ambiguous (candidates : List (List Char × Option (List Char))) :
      MatchOutcome
  | unresolved : MatchOutcome
deriving DecidableEq, Repr

/-- The per-reference body of the matching loop of `process_page`:
`candidates = title_to_ids_ci.get(_norm(link_text or ""), [])`, then branch
on the candidate count, validating a unique candidate through the cached
`validate_target_page`. -/
def classifyRef (idx : List (List Char × List (List Char × Option (List Char))))
    (live : List Char → Bool) (cache : List (List Char × Bool))
    (linkText : List Char) : MatchOutcome × List (List Char × Bool) :=
  match indexGet idx (norm linkText) with
  | [c] =>
    (fun r => (if r.1 then MatchOutcome.resolved c.1
               else MatchOutcome.targetMissing c.1 c.2, r.2))
    (validate_target_page live cache c.1)
  | [] => (MatchOutcome.unresolved, cache)
  | cs => (MatchOutcome.ambiguous cs, cache)

/-- The four matching buckets of `process_page`, plus the threaded
validation cache. -/
structure MatchBuckets where
  matched : List (LinkReference × List Char)
  unmatched : List LinkReference
  ambiguous : List (LinkReference × List (List Char × Option (List Char)))
  invalidTarget : List (LinkReference × List Char × Option (List Char))
  cache : List (List Char × Bool)
deriving Repr

/-- The matching loop of `process_page` over all scanned references,
threading the validation cache left to right. -/
def partitionRefs (idx : List (List Char × List (List Char × Option (List Char))))
    (live : List Char → Bool) :
    List LinkReference → List (List Char × Bool) → MatchBuckets
  | [], cache => ⟨[], [], [], [], cache⟩
  | r :: rs, cache =>
    (fun (oc : MatchOutcome × List (List Char × Bool)) =>
      (fun (rest : MatchBuckets) =>
        match oc.1 with
        | MatchOutcome.resolved tid =>
          ⟨(r, tid) :: rest.matched, rest.unmatched, rest.ambiguous,
            rest.invalidTarget, rest.cache⟩
        | MatchOutcome.targetMissing tid ttl =>
          ⟨rest.matched, rest.unmatched, rest.ambiguous,
            (r, tid, ttl) :: rest.invalidTarget, rest.cache⟩
        | MatchOutcome.ambiguous cs =>
          ⟨rest.matched, rest.unmatched, (r, cs) :: rest.ambiguous,
            rest.invalidTarget, rest.cache⟩
        | MatchOutcome.unresolved =>
          ⟨rest.matched, r :: rest.unmatched, rest.ambiguous,
            rest.invalidTarget, rest.cache⟩)
      (partitionRefs idx live rs oc.2))
    (classifyRef idx live cache r.linkText)

/-- The status expression at the end of `process_page` (Python truthiness
of the three counts; the `invalid_target` bucket is not consulted). -/
def pageStatus (matchedCount ambiguousCount unmatchedCount : Nat) :
    List Char :=
  if ambiguousCount ≠ 0 ∧ matchedCount = 0 ∧ unmatchedCount = 0 then
    "Ambiguous".toList
  else if unmatchedCount ≠ 0 ∧ matchedCount = 0 ∧ ambiguousCount = 0 then
    "Unresolved".toList
  else if ambiguousCount ≠ 0 ∨ unmatchedCount ≠ 0 then "Partial".toList
  else "Resolved".toList

/-- The status recorded for a page by `process_page`: the early no-links
path records `"No Links"`; otherwise the status is computed from the
matched/ambiguous/unmatched bucket sizes. -/
def pageOutcome (idx : List (List Char × List (List Char × Option (List Char))))
    (live : List Char → Bool) (refs : List LinkReference)
    (cache : List (List Char × Bool)) : List Char :=
  if refs = [] then "No Links".toList
  else
    (fun (b : MatchBuckets) =>
      pageStatus b.matched.length b.ambiguous.length b.unmatched.length)
    (partitionRefs idx live refs cache)

/-- `item.get("annotations", {})`. -/
def annOf : RichElem → AnnDict
  | RichElem.text t => t.ann
  | RichElem.mention _ a => a
  | RichElem.other _ a => a

/-- `create_updated_rich_text(original_rich_text, link_ref, target_page_id)`:
an out-of-range `rich_text_index` logs an error and returns the original
array unchanged; otherwise the addressed element is replaced according to
the pass type and the whole array is passed through
`_split_all_oversized_elements`. -/
def createUpdatedRichText (orig : List RichElem) (ref : LinkReference)
    (target : Option (List Char)) : List RichElem :=
  if orig.length ≤ ref.richTextIndex then orig
  else
    match orig[ref.richTextIndex]? with
    | none => orig
    | some item =>
      splitAllOversized
        (match ref.passType with
         | PassType.markdown =>
           orig.take ref.richTextIndex ++
             convertMarkdownLink (elemContent item) ref.linkText target
               (annOf item) ++
             orig.drop (ref.richTextIndex + 1)
         | PassType.href =>
           orig.take ref.richTextIndex ++
             [convertHrefLink ref.linkText target (annOf item)] ++
             orig.drop (ref.richTextIndex + 1))

/-- The review rows logged after a successful block update in
`process_page`: one row per element reference whose lookup target is falsy,
with status `"Ambiguous"`, `"Target Missing"` or `"Unresolved"` according
to the bucket the reference fell into during matching. -/
def reviewRows (refs : List LinkReference)
    (lookup : List (List Char × Option (List Char)))
    (pageAmbig pageInvalid : List LinkReference) :
    List (LinkReference × List Char) :=
  refs.filterMap fun ref =>
    if isTruthy (lookupGet lookup (norm ref.linkText)) then none
    else some (ref,
      if pageAmbig.contains ref then "Ambiguous".toList
      else if pageInvalid.contains ref then "Target Missing".toList
      else "Unresolved".toList)

/-- Result of the per-element update step of `process_page` for a regular
(non-table-row) block. -/
inductive ElemResult where
  | updated (newRichText : List RichElem)
      (rows : List (LinkReference × List Char)) : ElemResult
  | skippedMalformed : ElemResult
  | skippedTooLarge : ElemResult
deriving DecidableEq, Repr

/-- The per-element update step of `process_page` (regular blocks): skip
(`continue`) when the recorded index no longer addresses a text element of
the re-fetched rich_text array; otherwise convert all links in the element,
splice, split oversized elements, refuse arrays over 100 elements, and on
success update the block and log review rows. -/
def processElement (richText : List RichElem) (rtIndex : Nat)
    (elementRefs : List LinkReference)
    (lookup : List (List Char × Option (List Char)))
    (pageAmbig pageInvalid : List LinkReference) : ElemResult :=
  if richText = [] ∨ richText.length ≤ rtIndex then ElemResult.skippedMalformed
  else
    match richText[rtIndex]? with
    | none => ElemResult.skippedMalformed
    | some e =>
      match e with
      | RichElem.text t =>
        (fun updated =>
          if updated.length > 100 then ElemResult.skippedTooLarge
          else ElemResult.updated updated
            (reviewRows elementRefs lookup pageAmbig pageInvalid))
        (splitAllOversized
          (richText.take rtIndex ++
           convertTextWithAllLinks t.content t.ann lookup ++
           richText.drop (rtIndex + 1)))
      | _ => ElemResult.skippedMalformed

/-- An entry of `unfinished.json` (`{"id", "title"}`). -/
structure UEntry where
  id : List Char
  title : List Char
deriving DecidableEq, Repr

/-- An entry of `completed.json` (`{"id", "title", "status"}`). -/
structure CEntry where
  id : List Char
  title : List Char
  status : List Char
deriving DecidableEq, Repr

/-- The two durable queue files.  Each individual write is atomic
(`_write_json_atomic` writes a temp file and `os.replace`s it), so the
files are modelled as shared variables updated by atomic read and write
steps. -/
structure QFiles where
  unfinished : List UEntry
  completed : List CEntry
deriving DecidableEq, Repr

/-- A worker executing the queue-completion sequence of `process_page`
(lines `cur_unf = read; write(filtered); cur_comp = read; write(appended)`).
`pc` is the program counter over the four atomic steps; `regU`/`regC` are
the worker-local values read from the files. -/
structure Worker where
  docId : List Char
  docTitle : List Char
  status : List Char
  pc : Nat
  regU : List UEntry
  regC : List CEntry
deriving DecidableEq, Repr

/-- One atomic step of a worker's completion sequence:
0: read `unfinished`; 1: write `unfinished` filtered of its own document;
2: read `completed`; 3: append its completion entry. -/
def wstep (w : Worker) (f : QFiles) : Worker × QFiles :=
  match w.pc with
  | 0 => (⟨w.docId, w.docTitle, w.status, 1, f.unfinished, w.regC⟩, f)
  | 1 => (⟨w.docId, w.docTitle, w.status, 2, w.regU, w.regC⟩,
          ⟨w.regU.filter (fun it => it.id ≠ w.docId), f.completed⟩)
  | 2 => (⟨w.docId, w.docTitle, w.status, 3, w.regU, f.completed⟩, f)
  | 3 => (⟨w.docId, w.docTitle, w.status, 4, w.regU, w.regC⟩,
          ⟨f.unfinished, w.regC ++ [⟨w.docId, w.docTitle, w.status⟩]⟩)
  | _ => (w, f)

/-- Interleave two workers over the shared queue files according to a
schedule (`true` steps worker A, `false` steps worker B). -/
def runSched : List Bool → Worker → Worker → QFiles → QFiles
  | [], _, _, f => f
  | true :: sch, wa, wb, f =>
    runSched sch (wstep wa f).1 wb (wstep wa f).2
  | false :: sch, wa, wb, f =>
    runSched sch wa (wstep wb f).1 (wstep wb f).2

/-- A fresh worker about to complete `docId` with `status`. -/
def mkWorker (docId docTitle status : List Char) : Worker :=
  ⟨docId, docTitle, status, 0, [], []⟩

/-- The maintenance page titles excluded from the canonical registry. -/
def MAINTENANCE_PAGE_TITLES : List (List Char) :=
  ["Exceptions", "DuplicatePageNames", "EvernoteLinkFailure",
   "UnresolvableEvernoteLinks",
   "Page-Title mention conversion failures"].map String.toList

/-- `title_to_ids` grouping of the fresh-scan cleanup in
`resolve_links_command`: group page ids by exact (unnormalized) title in
insertion order. -/
def groupByTitle :
    List (List Char × Option (List Char)) →
    List (Option (List Char) × List (List Char))
  | [] => []
  | (pid, title) :: rest =>
    (fun gs =>
      match gs.find? (fun g => g.1 = title) with
      | some _ => gs.map (fun g => if g.1 = title then (g.1, g.2 ++ [pid]) else g)
      | none => gs ++ [(title, [pid])])
    (groupByTitle rest)

/-- `title_to_ids.get(t, [])`. -/
def groupGet (gs : List (Option (List Char) × List (List Char)))
    (t : Option (List Char)) : List (List Char) :=
  match gs.find? (fun g => g.1 = t) with
  | some g => g.2
  | none => []

/-- Lexicographic comparison of char lists by code point (Python string
`<=`), used as the sort key comparator. -/
def lexLe : List Char → List Char → Bool
  | [], _ => true
  | _ :: _, [] => false
  | a :: as, b :: bs => if a = b then lexLe as bs else decide (a < b)

/-- The duplicate/blank/maintenance purge and alphabetized re-persistence of
the fresh-rebuild branch of `resolve_links_command`: remove ids of blank
titles, of duplicate exact-title groups and of maintenance pages, then sort
by the case-insensitive title key. -/
def cleanRegistry (fresh : List (List Char × Option (List Char))) :
    List (List Char × Option (List Char)) :=
  (fresh.filter (fun p =>
      ¬ ((MAINTENANCE_PAGE_TITLES.flatMap
            (fun t => groupGet (groupByTitle fresh) (some t))) ++
         (groupGet (groupByTitle fresh) none ++
            groupGet (groupByTitle fresh) (some [])) ++
         ((groupByTitle fresh).filter
            (fun g => g.1 ≠ none ∧ g.1 ≠ some [] ∧ g.2.length > 1)).flatMap
            (fun g => g.2)).contains p.1)).mergeSort
    (fun a b => lexLe ((a.2.getD []).map Char.toLower)
      ((b.2.getD []).map Char.toLower))

/-- The registry selection at the top of `resolve_links_command`: when a
canonical snapshot file exists it is loaded and used verbatim (the log even
says "assuming pre-cleaned"); the purge and sorted re-persistence run only
on the fresh-rebuild path. -/
def loadOrRebuildRegistry (canonicalExists : Bool)
    (snapshot fresh : List (List Char × Option (List Char))) :
    List (List Char × Option (List Char)) :=
  if canonicalExists then snapshot else cleanRegistry fresh

/-! ### Helper lemmas for evaluating the embedding on large inputs

Inputs of thousands of characters (the 4,500-character scenario) are
represented symbolically as `List.replicate` and evaluated through the
following lemmas instead of by kernel computation. -/

theorem elemContent_mkText (c : List Char) (a : AnnDict) :
    elemContent (mkText c a) = c := rfl

theorem splitOnSpace_replicate (n : Nat) :
    splitOnSpace (List.replicate n 'a') = [List.replicate n 'a'] := by
  induction n with
  | zero => simp [splitOnSpace]
  | succ m ih =>
    rw [List.replicate_succ, splitOnSpace]
    simp only [ih]
    simp only [if_neg (by decide : ¬ ('a' = ' '))]

theorem splitOnSpace_replicate_space (n : Nat) (rest : List Char) :
    splitOnSpace (List.replicate n 'a' ++ ' ' :: rest) =
      List.replicate n 'a' :: splitOnSpace rest := by
  induction n with
  | zero => simp [splitOnSpace]
  | succ m ih =>
    rw [List.replicate_succ, List.cons_append, splitOnSpace]
    simp only [ih]
    simp only [if_neg (by decide : ¬ ('a' = ' '))]

theorem matchMdAt_ne_lbracket (c : Char) (rest : List Char)
    (h : c ≠ '[') : matchMdAt (c :: rest) = none := by
  unfold matchMdAt
  simp [h]

theorem mdScanAux_replicate (n : Nat) :
    ∀ (acc : List Char),
      mdScanAux acc (List.replicate n 'a') =
        if n = 0 ∧ acc = [] then []
        else [Seg.plain (acc.reverse ++ List.replicate n 'a')] := by
  induction n with
  | zero =>
    intro acc
    rw [List.replicate_zero, mdScanAux]
    by_cases ha : acc = []
    · simp [ha]
    · simp [ha]
  | succ m ih =>
    intro acc
    rw [List.replicate_succ, mdScanAux]
    rw [show matchMdAt ('a' :: List.replicate m 'a') = none from
      matchMdAt_ne_lbracket _ _ (by decide)]
    rw [ih ('a' :: acc)]
    simp

/-- The default annotations value used in the concrete scenarios. -/
def dAnn : AnnDict := AnnDict.mk defaultAnnFields

theorem splitWordsLoop_nil_ne (cur : List Char) (h : cur ≠ []) :
    splitWordsLoop [] cur = [cur] := by
  rw [splitWordsLoop, if_neg h]

theorem splitWordsLoop_cons_fit (w : List Char) (ws : List (List Char))
    (h : w.length ≤ MAX_RICH_TEXT_LENGTH) :
    splitWordsLoop (w :: ws) [] = splitWordsLoop ws w := by
  rw [splitWordsLoop]
  simp only [if_true]
  rw [if_neg (by omega)]

theorem splitWordsLoop_cons_force (w : List Char) (ws : List (List Char))
    (h : w.length > MAX_RICH_TEXT_LENGTH) :
    splitWordsLoop (w :: ws) [] =
      w.take MAX_RICH_TEXT_LENGTH ::
        splitWordsLoop ws (w.drop MAX_RICH_TEXT_LENGTH) := by
  rw [splitWordsLoop]
  simp only [if_true]
  rw [if_pos h]

theorem splitWordsLoop_cons_over (w cur : List Char) (ws : List (List Char))
    (hcur : cur ≠ [])
    (h : (cur ++ ' ' :: w).length > MAX_RICH_TEXT_LENGTH) :
    splitWordsLoop (w :: ws) cur = cur :: splitWordsLoop ws w := by
  rw [splitWordsLoop]
  rw [if_neg hcur]
  rw [if_pos h]
  rw [if_neg hcur]

theorem splitTextIfNeeded_rep4500 :
    splitTextIfNeeded (List.replicate 4500 'a') dAnn =
      [mkText (List.replicate 2000 'a') dAnn,
       mkText (List.replicate 2500 'a') dAnn] := by
  rw [splitTextIfNeeded,
    if_neg (by rw [List.length_replicate]; decide),
    splitOnSpace_replicate]
  rw [splitWordsLoop_cons_force _ _ (by rw [List.length_replicate]; decide)]
  rw [List.take_replicate, List.drop_replicate]
  rw [splitWordsLoop_nil_ne _
    (by rw [Ne, List.replicate_eq_nil_iff]; decide)]
  norm_num [MAX_RICH_TEXT_LENGTH]

theorem splitTextIfNeeded_space_loss :
    splitTextIfNeeded (List.replicate 2000 'a' ++ [' ', 'b']) dAnn =
      [mkText (List.replicate 2000 'a') dAnn, mkText ['b'] dAnn] := by
  rw [splitTextIfNeeded,
    if_neg (by
      simp only [List.length_append, List.length_replicate]
      decide)]
  rw [show (List.replicate 2000 'a' ++ [' ', 'b'] : List Char) =
    List.replicate 2000 'a' ++ ' ' :: ['b'] from rfl]
  rw [splitOnSpace_replicate_space]
  rw [show splitOnSpace ['b'] = [['b']] from rfl]
  rw [splitWordsLoop_cons_fit _ _ (by rw [List.length_replicate]; decide)]
  rw [splitWordsLoop_cons_over _ _ _
    (by rw [Ne, List.replicate_eq_nil_iff]; decide)
    (by simp only [List.length_append, List.length_replicate,
          List.length_cons, List.length_nil]
        decide)]
  rw [splitWordsLoop_nil_ne _ (by decide)]
  rw [List.map_cons, List.map_cons, List.map_nil]

/-! ### Claim theorems -/

/-- Claim C2 (code bug).  The claim states that `_split_text_if_needed`
preserves the input text (concatenation of the returned contents equals the
input) and that a 4,500-character plain span yields exactly 3 chunks of at
most 2000 characters.  The code does neither: (1) a single 4,500-character
word is split into 2 elements of lengths 2000 and 2500 — the force-split
remainder is never re-split, so the second element exceeds the limit the
function exists to enforce — and (2) the separating space between two
chunks is dropped, so the concatenation differs from the input. -/
theorem C2_split_text_bug :
    ((splitTextIfNeeded (List.replicate 4500 'a') dAnn).map elemContentLength
        = [2000, 2500]) ∧
    elemsText (splitTextIfNeeded (List.replicate 2000 'a' ++ [' ', 'b']) dAnn)
      ≠ List.replicate 2000 'a' ++ [' ', 'b'] := by
  constructor
  · rw [splitTextIfNeeded_rep4500]
    simp only [List.map_cons, List.map_nil, elemContentLength,
      elemContent_mkText, List.length_replicate]
  · rw [splitTextIfNeeded_space_loss]
    intro h
    have hlen := congrArg List.length h
    simp only [elemsText, List.map_cons, List.map_nil, elemContent_mkText,
      List.flatten_cons, List.flatten_nil, List.append_nil,
      List.length_append, List.length_replicate,
      List.length_cons, List.length_nil] at hlen
    omega

/-- The single-token evaluation of the normalizer pipeline on one plain
4,500-character text element. -/
theorem normalizeEmittedArrays_rep4500 :
    normalizeEmittedArrays
      ⟨"b1".toList, "paragraph".toList,
       [RichElem.text ⟨List.replicate 4500 'a', none, [], none, dAnn⟩],
       true⟩ =
    [[mkText (List.replicate 2000 'a') dAnn,
      mkText (List.replicate 2500 'a') dAnn]] := by
  have hscan : mdScan (List.replicate 4500 'a') =
      [Seg.plain (List.replicate 4500 'a')] := by
    rw [mdScan, mdScanAux_replicate]
    rw [if_neg (fun hh => absurd hh.1 (by decide))]
    rw [List.reverse_nil, List.nil_append]
  have htok : tokenizeRichText
      [RichElem.text ⟨List.replicate 4500 'a', none, [], none, dAnn⟩] =
      [Token.text (List.replicate 4500 'a') dAnn false] := by
    rw [tokenizeRichText, List.map_cons, List.map_nil, tokenizeItem, hscan]
    rw [List.map_cons, List.map_nil]
    rw [List.flatten_cons, List.flatten_nil, List.append_nil]
  have hpack : packTokens [Token.text (List.replicate 4500 'a') dAnn false] =
      [[Token.text (List.replicate 4500 'a') dAnn false]] := by
    rw [packTokens, packLoop]
    rw [if_neg (fun hh => by
      have h1 := hh.1
      simp only [tokIsLink] at h1
      exact Bool.noConfusion h1)]
    rw [if_neg (fun hh => hh.1 rfl)]
    rw [List.nil_append, packLoop]
    rw [if_neg (List.cons_ne_nil _ _)]
  have hbuild : buildRichText
      [Token.text (List.replicate 4500 'a') dAnn false] =
      [RichElem.text ⟨List.replicate 4500 'a', none, [], none, dAnn⟩] := rfl
  have hsplit : splitAllOversized
      [RichElem.text ⟨List.replicate 4500 'a', none, [], none, dAnn⟩] =
      [mkText (List.replicate 2000 'a') dAnn,
       mkText (List.replicate 2500 'a') dAnn] := by
    rw [splitAllOversized]
    dsimp only
    rw [if_neg (by rw [List.length_replicate]; decide)]
    rw [show (splitAllOversized ([] : List RichElem)) = [] from rfl]
    rw [List.append_nil]
    exact splitTextIfNeeded_rep4500
  have hneed : needsNormalization
      ⟨"b1".toList, "paragraph".toList,
       [RichElem.text ⟨List.replicate 4500 'a', none, [], none, dAnn⟩],
       true⟩ = true := by
    rw [needsNormalization]
    rw [if_neg (by decide)]
    rw [if_neg (by exact fun hh => List.noConfusion hh)]
    rw [if_pos (by
      simp only [List.any_cons, List.any_nil]
      rw [List.length_replicate]
      decide)]
  rw [normalizeEmittedArrays]
  rw [if_neg (by decide)]
  simp only [htok, hpack]
  rw [if_neg (fun hh => by
    rcases hh with hh | hh
    · exact List.noConfusion hh
    · rw [hneed] at hh
      exact absurd rfl hh.2)]
  rw [List.map_cons, List.map_nil, hbuild, hsplit]

/-- Claim C1 (code bug).  The claim states that every array emitted by the
normalizer/rewriter pipeline keeps each text element within the 2000
character limit, including elements that carry a hyperlink.  The code does
not: (1) the full normalizer pipeline applied to a single plain
4,500-character element emits an array whose second element has 2500
characters (the force-split remainder of `_split_text_if_needed` is never
re-split), and (2) `_split_all_oversized_elements` passes an oversized text
element that carries a hyperlink through unchanged (the code comment says
"truncate", but no truncation happens), so a 2001-character element
survives in the emitted array. -/
theorem C1_limit_violation :
    ((normalizeEmittedArrays
        ⟨"b1".toList, "paragraph".toList,
         [RichElem.text ⟨List.replicate 4500 'a', none, [], none, dAnn⟩],
         true⟩).map (fun arr => arr.map elemContentLength)
      = [[2000, 2500]]) ∧
    (splitAllOversized
        [RichElem.text ⟨List.replicate 2001 'a', some "http://x".toList,
          [], none, dAnn⟩]).map elemContentLength = [2001] := by
  constructor
  · rw [normalizeEmittedArrays_rep4500]
    simp only [List.map_cons, List.map_nil, elemContentLength,
      elemContent_mkText, List.length_replicate]
  · rw [splitAllOversized]
    dsimp only
    rw [if_neg (by rw [List.length_replicate]; decide)]
    rw [show (splitAllOversized ([] : List RichElem)) = [] from rfl]
    rw [List.append_nil]
    simp only [List.map_cons, List.map_nil, elemContentLength, elemContent,
      List.length_replicate]

/-- Evaluator lemma: one step of `mdScanAux` in terms of the structural
`searchMd`. -/
theorem mdScanAux_eq_searchMd :
    ∀ (s acc : List Char),
      mdScanAux acc s =
        (match searchMd s with
         | none =>
           if acc.reverse ++ s = [] then []
           else [Seg.plain (acc.reverse ++ s)]
         | some (p, n, u, a) =>
           (if acc.reverse ++ p = [] then []
            else [Seg.plain (acc.reverse ++ p)]) ++
           Seg.link n u :: mdScanAux [] a) := by
  intro s
  induction s with
  | nil =>
    intro acc
    rw [mdScanAux]
    simp only [searchMd]
    by_cases ha : acc = []
    · subst ha
      simp
    · rw [if_neg ha, if_neg (by simp [ha])]
      simp
  | cons c rest ih =>
    intro acc
    rw [mdScanAux]
    cases hm : matchMdAt (c :: rest) with
    | some r =>
      obtain ⟨n, u, after⟩ := r
      simp only [searchMd, hm]
      by_cases ha : acc = []
      · subst ha
        simp
      · rw [if_neg ha, if_neg (by simp [ha])]
        simp
    | none =>
      simp only [searchMd, hm]
      rw [ih (c :: acc)]
      cases hs : searchMd rest with
      | none =>
        simp only [List.reverse_cons, List.append_assoc, List.cons_append,
          List.nil_append]
      | some r =>
        obtain ⟨p, n, u, a⟩ := r
        simp only [List.reverse_cons, List.append_assoc, List.cons_append,
          List.nil_append]

/-- `mdScan` expressed through the structural `searchMd`, for evaluating
concrete inputs. -/
theorem mdScan_eval (s : List Char) :
    mdScan s =
      (match searchMd s with
       | none => if s = [] then [] else [Seg.plain s]
       | some (p, n, u, a) =>
         (if p = [] then [] else [Seg.plain p]) ++
           Seg.link n u :: mdScan a) := by
  rw [mdScan, mdScanAux_eq_searchMd]
  cases hs : searchMd s with
  | none => simp
  | some r =>
    obtain ⟨p, n, u, a⟩ := r
    simp [mdScan]

/-- `mdFinditer` expressed through the structural `searchMd`. -/
theorem mdFinditer_eval (s : List Char) :
    mdFinditer s =
      (match searchMd s with
       | none => []
       | some (p, n, u, a) => (n, u) :: mdFinditer a) := by
  rw [mdFinditer, mdScan_eval]
  cases hs : searchMd s with
  | none =>
    by_cases h : s = [] <;> simp [h]
  | some r =>
    obtain ⟨p, n, u, a⟩ := r
    by_cases h : p = [] <;> simp [h, mdFinditer]

/-- Evaluation of the rewriter on the paragraph
`"[Beta](evernote://x) and [Gamma](evernote://y)"` with a lookup resolving
`beta` to `d3` and no entry for `gamma`. -/
theorem C3_demo_eval :
    convertTextWithAllLinks
      "[Beta](evernote://x) and [Gamma](evernote://y)".toList dAnn
      [("beta".toList, some "d3".toList)] =
    [RichElem.mention "d3".toList dAnn,
     RichElem.text ⟨" and 🛑 unresolved: [Gamma](evernote://y)".toList,
       none, [], none, dAnn⟩] := by
  rw [convertTextWithAllLinks]
  rw [show searchMd "[Beta](evernote://x) and [Gamma](evernote://y)".toList =
    some ([], "Beta".toList, "evernote://x".toList,
      " and [Gamma](evernote://y)".toList) from by decide]
  dsimp only
  rw [if_pos rfl]
  rw [show lookupGet [("beta".toList, some "d3".toList)]
      ("Beta".toList.map Char.toLower) = some "d3".toList from by decide]
  dsimp only
  rw [if_neg (by decide)]
  rw [if_neg (by decide)]
  rw [convertTextWithAllLinks]
  rw [show searchMd " and [Gamma](evernote://y)".toList =
    some (" and ".toList, "Gamma".toList, "evernote://y".toList, []) from by
      decide]
  dsimp only
  rw [if_neg (by decide)]
  rw [show lookupGet [("beta".toList, some "d3".toList)]
      ("Gamma".toList.map Char.toLower) = none from by decide]
  dsimp only
  rw [if_pos rfl]
  -- remaining: splitTextIfNeeded on small strings and consolidate on small
  -- lists; all structural except consolidate
  rw [show splitTextIfNeeded " and ".toList dAnn =
    [mkText " and ".toList dAnn] from by decide]
  rw [show splitTextIfNeeded (unresolvedMd "Gamma".toList
      "evernote://y".toList) dAnn =
    [mkText (unresolvedMd "Gamma".toList "evernote://y".toList) dAnn] from by
      decide]
  simp only [List.nil_append, List.append_nil, List.singleton_append]
  rw [show mkMention "d3".toList dAnn =
    RichElem.mention "d3".toList dAnn from rfl]
  rw [show mkText " and ".toList dAnn =
    RichElem.text ⟨" and ".toList, none, [], none, dAnn⟩ from rfl]
  rw [show mkText (unresolvedMd "Gamma".toList "evernote://y".toList) dAnn =
    RichElem.text ⟨unresolvedMd "Gamma".toList "evernote://y".toList,
      none, [], none, dAnn⟩ from rfl]
  rw [consolidate]
  rw [consolidate]
  rw [show absorb " and ".toList dAnn
      [RichElem.text ⟨unresolvedMd "Gamma".toList "evernote://y".toList,
        none, [], none, dAnn⟩] =
    (" and 🛑 unresolved: [Gamma](evernote://y)".toList, []) from by decide]
  rw [show consolidate [] = [] from by rw [consolidate]]
  rw [consolidate]
  rw [show absorb " and 🛑 unresolved: [Gamma](evernote://y)".toList dAnn [] =
    (" and 🛑 unresolved: [Gamma](evernote://y)".toList, []) from by decide]
  rw [show consolidate [] = [] from by rw [consolidate]]
  all_goals intro t ht; exact RichElem.noConfusion ht

/-- Claim C3 (counterexample).  The claim states the rewrite yields the
three-element sequence `[MentionSpan(d3), TextSpan(" and "),
TextSpan("unresolved: Gamma → legacy://y")]`.  It does not: the code
formats the unresolved marker as `"🛑 unresolved: [Gamma](evernote://y)"`
(keeping the original markdown and prefixing a stop sign), and its
consolidation pass merges the `" and "` span with the marker span into a
single text element, so the result has two elements, not three. -/
theorem C3_counterexample :
    convertTextWithAllLinks
      "[Beta](evernote://x) and [Gamma](evernote://y)".toList dAnn
      [("beta".toList, some "d3".toList)] ≠
    [RichElem.mention "d3".toList dAnn,
     RichElem.text ⟨" and ".toList, none, [], none, dAnn⟩,
     RichElem.text ⟨"unresolved: Gamma → legacy://y".toList,
       none, [], none, dAnn⟩] := by
  rw [C3_demo_eval]
  intro h
  have hlen := congrArg List.length h
  simp only [List.length_cons, List.length_nil] at hlen
  omega

/-- Claim C3 (amended).  Rewriting the paragraph
`"[Beta](evernote://x) and [Gamma](evernote://y)"` against a lookup where
`beta` maps to `d3` and `gamma` has no entry yields exactly
`[MentionSpan(d3), TextSpan(" and 🛑 unresolved: [Gamma](evernote://y)")]`:
the page mention for the resolved link, followed by one text element in
which the intervening text and the unresolved marker (which embeds the
original display text and target in markdown form) have been merged by the
consolidation pass. -/
theorem C3_amended :
    convertTextWithAllLinks
      "[Beta](evernote://x) and [Gamma](evernote://y)".toList dAnn
      [("beta".toList, some "d3".toList)] =
    [RichElem.mention "d3".toList dAnn,
     RichElem.text ⟨" and 🛑 unresolved: [Gamma](evernote://y)".toList,
       none, [], none, dAnn⟩] := C3_demo_eval


/-- Claim C4 (confirmed).  Per text span: Pass A emits one markdown
reference per non-overlapping `finditer` match (all matches, in order, each
carrying its own display text and target); Pass B emits a single
href-based reference only when Pass A found no match in that span; a span
with neither yields nothing; any href-pass reference in the output implies
the markdown pass found nothing (mutual exclusion, Pass A precedence); and
scanning an array decomposes span-wise (passes are independent across
spans of the same container). -/
theorem C4_scanner_passes (pid pt bid bt : List Char) (t : TextElem)
    (idx : Nat) :
    (mdFinditer t.content ≠ [] →
      scanItem pid pt bid bt idx (RichElem.text t) =
        (mdFinditer t.content).map (fun m =>
          ⟨pid, pt, bid, bt, m.1, m.2, idx, RichElem.text t,
            PassType.markdown⟩))
  ∧ (mdFinditer t.content = [] → hrefIsEvernote t.href = true →
      scanItem pid pt bid bt idx (RichElem.text t) =
        [⟨pid, pt, bid, bt, t.plainText.getD t.content, t.href, idx,
          RichElem.text t, PassType.href⟩])
  ∧ (mdFinditer t.content = [] → hrefIsEvernote t.href = false →
      scanItem pid pt bid bt idx (RichElem.text t) = [])
  ∧ (∀ r ∈ scanItem pid pt bid bt idx (RichElem.text t),
      r.passType = PassType.href → mdFinditer t.content = [])
  ∧ (∀ (i : Nat) (pre post : List RichElem),
      scanFrom pid pt bid bt i (pre ++ post) =
        scanFrom pid pt bid bt i pre ++
          scanFrom pid pt bid bt (i + pre.length) post) := by
  refine ⟨?_, ?_, ?_, ?_, ?_⟩
  · intro h
    rw [scanItem, if_pos h]
  · intro h hh
    rw [scanItem, if_neg (by simp [h]), if_pos hh]
  · intro h hh
    rw [scanItem, if_neg (by simp [h]), if_neg (by simp [hh])]
  · intro r hr hpass
    by_cases hmd : mdFinditer t.content = []
    · exact hmd
    · rw [scanItem, if_pos hmd] at hr
      obtain ⟨m, hm, rfl⟩ := List.mem_map.mp hr
      exact absurd hpass (by simp)
  · intro i pre post
    induction pre generalizing i with
    | nil => simp [scanFrom]
    | cons e rest ih =>
      rw [List.cons_append, scanFrom, scanFrom, ih, List.append_assoc]
      rw [List.length_cons]
      rw [show i + 1 + rest.length = i + (rest.length + 1) from by omega]

/-- Witness for C4: a span whose text holds two markdown links (and also an
evernote href, which Pass A precedence ignores) yields exactly the two
markdown references; a plain span with an evernote href yields exactly the
single href reference. -/
theorem C4_scanner_passes_witness :
    (mdFinditer "see [A](evernote://1) and [B](evernote://2)".toList ≠ [] ∧
     scanItem "p".toList "P".toList "b".toList "paragraph".toList 0
       (RichElem.text ⟨"see [A](evernote://1) and [B](evernote://2)".toList,
         none, "evernote://zzz".toList, none, dAnn⟩) =
       (mdFinditer "see [A](evernote://1) and [B](evernote://2)".toList).map
         (fun m =>
           ⟨"p".toList, "P".toList, "b".toList, "paragraph".toList,
            m.1, m.2, 0,
            RichElem.text
              ⟨"see [A](evernote://1) and [B](evernote://2)".toList,
               none, "evernote://zzz".toList, none, dAnn⟩,
            PassType.markdown⟩)) ∧
    (mdFinditer "plain text".toList = [] ∧
     scanItem "p".toList "P".toList "b".toList "paragraph".toList 1
       (RichElem.text ⟨"plain text".toList, none,
         "evernote://zzz".toList, none, dAnn⟩) =
       [⟨"p".toList, "P".toList, "b".toList, "paragraph".toList,
         "plain text".toList, "evernote://zzz".toList, 1,
         RichElem.text ⟨"plain text".toList, none,
           "evernote://zzz".toList, none, dAnn⟩, PassType.href⟩]) := by
  have e1 : mdFinditer "see [A](evernote://1) and [B](evernote://2)".toList =
      [("A".toList, "evernote://1".toList),
       ("B".toList, "evernote://2".toList)] := by
    rw [mdFinditer_eval,
      show searchMd "see [A](evernote://1) and [B](evernote://2)".toList =
        some ("see ".toList, "A".toList, "evernote://1".toList,
          " and [B](evernote://2)".toList) from by decide]
    dsimp only
    rw [mdFinditer_eval,
      show searchMd " and [B](evernote://2)".toList =
        some (" and ".toList, "B".toList, "evernote://2".toList, []) from by
          decide]
    dsimp only
    rw [mdFinditer_eval, show searchMd [] = none from by decide]
  have e2 : mdFinditer "plain text".toList = [] := by
    rw [mdFinditer_eval, show searchMd "plain text".toList = none from by
      decide]
  have h1 : mdFinditer "see [A](evernote://1) and [B](evernote://2)".toList
      ≠ [] := by rw [e1]; exact List.cons_ne_nil _ _
  refine ⟨⟨h1, ?_⟩, ⟨e2, ?_⟩⟩
  · exact (C4_scanner_passes "p".toList "P".toList "b".toList
      "paragraph".toList _ 0).1 h1
  · have := (C4_scanner_passes "p".toList "P".toList "b".toList
      "paragraph".toList
      ⟨"plain text".toList, none, "evernote://zzz".toList, none, dAnn⟩
      1).2.1 e2 (by decide)
    rw [this]
    rfl


/-- Claim C5 (confirmed; `validate_target_page` modelled from the spec).
Matching normalizes the display text with `_norm` and looks it up in the
normalized-title index: zero candidates yield `unresolved`; a unique
candidate yields `resolved`, degrading to the distinct `targetMissing`
outcome when the cached liveness validation fails; several candidates
yield `ambiguous` carrying the full candidate list.  The validation is
cached at-most-once-per-id: a cached id is answered without consulting the
liveness oracle (the result does not depend on it), and re-validating
right after a validation returns the same verdict and cache. -/
theorem C5_matcher
    (idx : List (List Char × List (List Char × Option (List Char))))
    (live : List Char → Bool) (cache : List (List Char × Bool))
    (t : List Char) :
    (indexGet idx (norm t) = [] →
      (classifyRef idx live cache t).1 = MatchOutcome.unresolved)
  ∧ (∀ c, indexGet idx (norm t) = [c] →
      (classifyRef idx live cache t).1 =
        (if (validate_target_page live cache c.1).1 then
          MatchOutcome.resolved c.1
         else MatchOutcome.targetMissing c.1 c.2))
  ∧ (∀ cs, indexGet idx (norm t) = cs → 2 ≤ cs.length →
      (classifyRef idx live cache t).1 = MatchOutcome.ambiguous cs)
  ∧ (∀ pid, (cache.find? (fun p => p.1 = pid)).isSome →
      ∀ live2, validate_target_page live cache pid =
        validate_target_page live2 cache pid)
  ∧ (∀ pid live2,
      validate_target_page live2
        (validate_target_page live cache pid).2 pid =
      ((validate_target_page live cache pid).1,
       (validate_target_page live cache pid).2)) := by
  refine ⟨?_, ?_, ?_, ?_, ?_⟩
  · intro h
    unfold classifyRef
    rw [h]
  · intro c h
    unfold classifyRef
    rw [h]
  · intro cs h hlen
    unfold classifyRef
    rw [h]
    match cs, hlen with
    | c1 :: c2 :: rest, _ => rfl
  · intro pid hs live2
    unfold validate_target_page
    cases hf : List.find? (fun p => p.1 = pid) cache with
    | some p => rfl
    | none => rw [hf] at hs; exact absurd hs (by simp)
  · intro pid live2
    unfold validate_target_page
    cases hf : List.find? (fun p => p.1 = pid) cache with
    | some p => simp [hf]
    | none =>
      simp only [hf]
      rw [List.find?]
      simp

/-- Witness for C5: a one-page registry titled `X`; looking up `nope`
is unresolved, looking up `" x "` (whitespace and case differences)
resolves to `d1` under a passing liveness check and degrades to
targetMissing under a failing one; a two-page registry with titles `X`
and `" x "` makes the same lookup ambiguous with both candidates. -/
theorem C5_matcher_witness :
    (indexGet (buildIndex [("d1".toList, some "X".toList)])
        (norm "nope".toList) = [] ∧
     (classifyRef (buildIndex [("d1".toList, some "X".toList)])
        (fun _ => true) [] "nope".toList).1 = MatchOutcome.unresolved) ∧
    ((classifyRef (buildIndex [("d1".toList, some "X".toList)])
        (fun _ => true) [] " x ".toList).1 =
      MatchOutcome.resolved "d1".toList) ∧
    ((classifyRef (buildIndex [("d1".toList, some "X".toList)])
        (fun _ => false) [] " x ".toList).1 =
      MatchOutcome.targetMissing "d1".toList (some "X".toList)) ∧
    ((classifyRef (buildIndex
        [("d1".toList, some "X".toList), ("d2".toList, some " x ".toList)])
        (fun _ => true) [] "x".toList).1 =
      MatchOutcome.ambiguous
        [("d1".toList, some "X".toList), ("d2".toList, some " x ".toList)]) ∧
    (validate_target_page (fun _ => false) [("d1".toList, true)]
        "d1".toList =
      validate_target_page (fun _ => true) [("d1".toList, true)]
        "d1".toList) := by
  refine ⟨⟨by decide, ?_⟩, ?_, ?_, ?_, ?_⟩
  · exact (C5_matcher (buildIndex [("d1".toList, some "X".toList)])
      (fun _ => true) [] "nope".toList).1 (by decide)
  · rw [(C5_matcher (buildIndex [("d1".toList, some "X".toList)])
      (fun _ => true) [] " x ".toList).2.1
      ("d1".toList, some "X".toList) (by decide)]
    decide
  · rw [(C5_matcher (buildIndex [("d1".toList, some "X".toList)])
      (fun _ => false) [] " x ".toList).2.1
      ("d1".toList, some "X".toList) (by decide)]
    decide
  · exact (C5_matcher (buildIndex
      [("d1".toList, some "X".toList), ("d2".toList, some " x ".toList)])
      (fun _ => true) [] "x".toList).2.2.1
      [("d1".toList, some "X".toList), ("d2".toList, some " x ".toList)]
      (by decide) (by decide)
  · exact (C5_matcher (buildIndex [("d1".toList, some "X".toList)])
      (fun _ => false) [("d1".toList, true)] "anything".toList).2.2.2.1
      "d1".toList (by decide) (fun _ => true)


theorem packLoop_flatten (cl el : Nat) :
    ∀ (toks : List Token) (cur : List Token) (c e : Nat),
      (packLoop cl el toks cur c e).flatten = cur ++ toks := by
  intro toks
  induction toks with
  | nil =>
    intro cur c e
    rw [packLoop]
    by_cases h : cur = []
    · simp [h]
    · simp [h]
  | cons tok rest ih =>
    intro cur c e
    rw [packLoop]
    by_cases h1 : tokIsLink tok = true ∧ tokTextLen tok > cl
    · rw [if_pos h1]
      by_cases h : cur = []
      · simp [h, ih]
      · simp [h, ih]
    · rw [if_neg h1]
      by_cases h2 : cur ≠ [] ∧ (c + tokTextLen tok > cl ∨ e + 1 > el)
      · rw [if_pos h2]
        simp [ih]
      · rw [if_neg h2]
        rw [ih]
        simp

theorem packLoop_oversized_alone (cl el : Nat) :
    ∀ (toks cur : List Token) (c e : Nat),
      (∀ t ∈ cur, ¬(tokIsLink t = true ∧ tokTextLen t > cl)) →
      ∀ chunk ∈ packLoop cl el toks cur c e,
        ∀ tok ∈ chunk, tokIsLink tok = true → tokTextLen tok > cl →
          chunk = [tok] := by
  intro toks
  induction toks with
  | nil =>
    intro cur c e hcur chunk hchunk tok htok hlink hlen
    rw [packLoop] at hchunk
    by_cases h : cur = []
    · rw [if_pos h] at hchunk
      exact absurd hchunk (List.not_mem_nil _)
    · rw [if_neg h] at hchunk
      simp only [List.mem_singleton] at hchunk
      subst hchunk
      exact absurd ⟨hlink, hlen⟩ (hcur tok htok)
  | cons tok0 rest ih =>
    intro cur c e hcur chunk hchunk tok htok hlink hlen
    rw [packLoop] at hchunk
    by_cases h1 : tokIsLink tok0 = true ∧ tokTextLen tok0 > cl
    · rw [if_pos h1] at hchunk
      rw [List.mem_append] at hchunk
      rcases hchunk with hchunk | hchunk
      · by_cases h : cur = []
        · rw [if_pos h] at hchunk
          exact absurd hchunk (List.not_mem_nil _)
        · rw [if_neg h] at hchunk
          simp only [List.mem_singleton] at hchunk
          subst hchunk
          exact absurd ⟨hlink, hlen⟩ (hcur tok htok)
      · rw [List.mem_cons] at hchunk
        rcases hchunk with hchunk | hchunk
        · subst hchunk
          simp only [List.mem_singleton] at htok
          subst htok
          rfl
        · exact ih [] 0 0 (by intro t ht; exact absurd ht (List.not_mem_nil _))
            chunk hchunk tok htok hlink hlen
    · rw [if_neg h1] at hchunk
      by_cases h2 : cur ≠ [] ∧ (c + tokTextLen tok0 > cl ∨ e + 1 > el)
      · rw [if_pos h2] at hchunk
        rw [List.mem_cons] at hchunk
        rcases hchunk with hchunk | hchunk
        · subst hchunk
          exact absurd ⟨hlink, hlen⟩ (hcur tok htok)
        · exact ih [tok0] (tokTextLen tok0) 1
            (by
              intro t ht
              simp only [List.mem_singleton] at ht
              subst ht
              exact h1)
            chunk hchunk tok htok hlink hlen
      · rw [if_neg h2] at hchunk
        exact ih (cur ++ [tok0]) (c + tokTextLen tok0) (e + 1)
          (by
            intro t ht
            rw [List.mem_append] at ht
            rcases ht with ht | ht
            · exact hcur t ht
            · simp only [List.mem_singleton] at ht
              subst ht
              exact h1)
          chunk hchunk tok htok hlink hlen

theorem appendTextElem_text :
    ∀ (elems : List RichElem) (c : List Char) (a : AnnDict),
      elemsText (appendTextElem elems c a) = elemsText elems ++ c := by
  intro elems
  induction elems with
  | nil =>
    intro c a
    simp [appendTextElem, elemsText, mkText, elemContent]
  | cons e rest ih =>
    intro c a
    cases rest with
    | nil =>
      cases e with
      | text t =>
        rw [appendTextElem]
        by_cases hc : t.ann = a ∧
            t.content.length + c.length ≤ MAX_RICH_TEXT_LENGTH
        · rw [if_pos hc]
          simp [elemsText, elemContent]
        · rw [if_neg hc]
          simp [elemsText, elemContent, mkText]
      | mention p an => simp [appendTextElem, elemsText, elemContent, mkText]
      | other g an => simp [appendTextElem, elemsText, elemContent, mkText]
    | cons e2 rest2 =>
      rw [appendTextElem]
      simp only [elemsText, List.map_cons, List.flatten_cons] at ih ⊢
      rw [ih]
      simp

theorem buildLoop_text :
    ∀ (toks : List Token) (elems : List RichElem),
      elemsText (buildLoop toks elems) = elemsText elems ++ toksText toks := by
  intro toks
  induction toks with
  | nil =>
    intro elems
    simp [buildLoop, toksText]
  | cons tok rest ih =>
    intro elems
    cases tok with
    | other item =>
      rw [buildLoop, ih]
      simp [elemsText, toksText, tokText]
    | text c a l =>
      rw [buildLoop, ih, appendTextElem_text]
      simp [toksText, tokText]

/-- Claim C6 (counterexample).  The claim states the post-pack merge pass
never merges a non-splittable (link) token with an adjacent token into a
single combined text element.  `_build_rich_text_from_tokens` does merge
them: a plain token `"a"` followed by the link token `"[B](evernote://u)"`
with the same annotations is emitted as one combined text element. -/
theorem C6_counterexample :
    tokIsLink (Token.text "[B](evernote://u)".toList dAnn true) = true ∧
    buildRichText [Token.text "a".toList dAnn false,
      Token.text "[B](evernote://u)".toList dAnn true] =
      [RichElem.text ⟨"a[B](evernote://u)".toList, none, [], none, dAnn⟩] := by
  constructor
  · rfl
  · decide

/-- Claim C6 (amended).  Packing never splits any token across chunks (the
concatenation of the chunks is the token list itself); a non-splittable
link token whose length alone exceeds the character limit is emitted alone
in its own chunk; and the merge pass of `_build_rich_text_from_tokens`,
which may combine a link token with adjacent same-annotation text into one
element, still preserves the concatenated text in order (so a link token's
text is never severed, only concatenated with its neighbours). -/
theorem C6_amended :
    (∀ (tokens : List Token) (cl el : Nat),
      (packTokens tokens cl el).flatten = tokens)
  ∧ (∀ (tokens : List Token) (cl el : Nat) (chunk : List Token)
      (tok : Token), chunk ∈ packTokens tokens cl el → tok ∈ chunk →
      tokIsLink tok = true → tokTextLen tok > cl → chunk = [tok])
  ∧ (∀ tokens : List Token,
      elemsText (buildRichText tokens) = toksText tokens) := by
  refine ⟨?_, ?_, ?_⟩
  · intro tokens cl el
    rw [packTokens, packLoop_flatten]
    simp
  · intro tokens cl el chunk tok hchunk htok hlink hlen
    exact packLoop_oversized_alone cl el tokens [] 0 0
      (by intro t ht; exact absurd ht (List.not_mem_nil _))
      chunk hchunk tok htok hlink hlen
  · intro tokens
    rw [buildRichText, buildLoop_text]
    simp [elemsText]

/-- Witness for C6 (amended): with `charLimit = 5`, a 14-character link
token is placed alone in its own chunk, the chunks concatenate back to the
token list, and the built rich text preserves the concatenated content. -/
theorem C6_amended_witness :
    ((packTokens [Token.text "ab".toList dAnn false,
        Token.text "[A](evernotex)".toList dAnn true] 5 10).flatten =
      [Token.text "ab".toList dAnn false,
       Token.text "[A](evernotex)".toList dAnn true]) ∧
    ([Token.text "[A](evernotex)".toList dAnn true] ∈
      packTokens [Token.text "ab".toList dAnn false,
        Token.text "[A](evernotex)".toList dAnn true] 5 10 ∧
     [Token.text "[A](evernotex)".toList dAnn true] =
       [Token.text "[A](evernotex)".toList dAnn true]) ∧
    (elemsText (buildRichText [Token.text "ab".toList dAnn false,
        Token.text "[A](evernotex)".toList dAnn true]) =
      toksText [Token.text "ab".toList dAnn false,
        Token.text "[A](evernotex)".toList dAnn true]) := by
  refine ⟨?_, ⟨?_, ?_⟩, ?_⟩
  · exact C6_amended.1 _ 5 10
  · decide
  · exact C6_amended.2.1
      [Token.text "ab".toList dAnn false,
       Token.text "[A](evernotex)".toList dAnn true] 5 10
      [Token.text "[A](evernotex)".toList dAnn true]
      (Token.text "[A](evernotex)".toList dAnn true)
      (by decide) (by decide) (by decide) (by decide)
  · exact C6_amended.2.2 _


/-- A concrete scanned reference whose display text is `X`. -/
def refX : LinkReference :=
  ⟨"p".toList, "P".toList, "b".toList, "paragraph".toList, "X".toList,
   "evernote://u".toList, 0, mkText "x".toList dAnn, PassType.markdown⟩

/-- Claim C7 (counterexample).  The claim states the recorded status is
chosen over all references including those whose resolved target failed
liveness validation (TargetMissing), with `Unresolved` when every
reference failed to match.  In the code the `invalid_target` bucket is not
consulted at all: a page whose single reference resolves uniquely but
fails validation is recorded `"Resolved"`, not `"Unresolved"`. -/
theorem C7_counterexample :
    (pageOutcome (buildIndex [("d1".toList, some "X".toList)])
        (fun _ => false) [refX] [] = "Resolved".toList) ∧
    ((partitionRefs (buildIndex [("d1".toList, some "X".toList)])
        (fun _ => false) [refX] []).invalidTarget.length = 1) ∧
    ((partitionRefs (buildIndex [("d1".toList, some "X".toList)])
        (fun _ => false) [refX] []).matched.length = 0) ∧
    ("Resolved".toList ≠ "Unresolved".toList) := by decide

/-- Claim C7 (amended).  The status recorded by `process_page` is
`"No Links"` when the scanner found nothing, and otherwise is computed
from the matched/ambiguous/unmatched bucket sizes only — references whose
target failed liveness validation are ignored, so a page whose references
are all TargetMissing is recorded `"Resolved"`.  On the three counts the
table is: only-ambiguous → `"Ambiguous"`; only-unmatched →
`"Unresolved"`; any failure mixed with matches, or both failure kinds →
`"Partial"`; no failures → `"Resolved"`. -/
theorem C7_amended
    (idx : List (List Char × List (List Char × Option (List Char))))
    (live : List Char → Bool) (refs : List LinkReference)
    (cache : List (List Char × Bool)) :
    (refs = [] → pageOutcome idx live refs cache = "No Links".toList)
  ∧ (refs ≠ [] → pageOutcome idx live refs cache =
      pageStatus (partitionRefs idx live refs cache).matched.length
        (partitionRefs idx live refs cache).ambiguous.length
        (partitionRefs idx live refs cache).unmatched.length)
  ∧ (∀ m a u : Nat, a ≠ 0 → m = 0 → u = 0 →
      pageStatus m a u = "Ambiguous".toList)
  ∧ (∀ m a u : Nat, u ≠ 0 → m = 0 → a = 0 →
      pageStatus m a u = "Unresolved".toList)
  ∧ (∀ m a u : Nat, (a ≠ 0 ∨ u ≠ 0) → (m ≠ 0 ∨ (a ≠ 0 ∧ u ≠ 0)) →
      pageStatus m a u = "Partial".toList)
  ∧ (∀ m a u : Nat, a = 0 → u = 0 → pageStatus m a u = "Resolved".toList)
  ∧ (refs ≠ [] → (partitionRefs idx live refs cache).matched = [] →
      (partitionRefs idx live refs cache).ambiguous = [] →
      (partitionRefs idx live refs cache).unmatched = [] →
      pageOutcome idx live refs cache = "Resolved".toList) := by
  refine ⟨?_, ?_, ?_, ?_, ?_, ?_, ?_⟩
  · intro h
    rw [pageOutcome, if_pos h]
  · intro h
    rw [pageOutcome, if_neg h]
  · intro m a u ha hm hu
    rw [pageStatus, if_pos ⟨ha, hm, hu⟩]
  · intro m a u hu hm ha
    rw [pageStatus]
    rw [if_neg (by omega)]
    rw [if_pos ⟨hu, hm, ha⟩]
  · intro m a u h1 h2
    rw [pageStatus]
    rw [if_neg (by omega), if_neg (by omega), if_pos h1]
  · intro m a u ha hu
    rw [pageStatus]
    rw [if_neg (by omega), if_neg (by omega), if_neg (by omega)]
  · intro h hm ha hu
    rw [pageOutcome, if_neg h]
    simp only [hm, ha, hu, List.length_nil]
    rw [pageStatus]
    rw [if_neg (by omega), if_neg (by omega), if_neg (by omega)]

/-- Witness for C7 (amended): a no-reference page records `"No Links"`;
the one-TargetMissing page records `"Resolved"`; and the status table at
concrete counts. -/
theorem C7_amended_witness :
    (pageOutcome (buildIndex [("d1".toList, some "X".toList)])
        (fun _ => false) [] [] = "No Links".toList) ∧
    (pageOutcome (buildIndex [("d1".toList, some "X".toList)])
        (fun _ => false) [refX] [] = "Resolved".toList) ∧
    pageStatus 0 2 0 = "Ambiguous".toList ∧
    pageStatus 0 0 2 = "Unresolved".toList ∧
    pageStatus 1 1 0 = "Partial".toList ∧
    pageStatus 3 0 0 = "Resolved".toList := by
  refine ⟨?_, ?_, ?_, ?_, ?_, ?_⟩
  · exact (C7_amended (buildIndex [("d1".toList, some "X".toList)])
      (fun _ => false) [] []).1 rfl
  · exact (C7_amended (buildIndex [("d1".toList, some "X".toList)])
      (fun _ => false) [refX] []).2.2.2.2.2.2 (by decide) (by decide)
      (by decide) (by decide)
  · exact (C7_amended [] (fun _ => false) [] []).2.2.1 0 2 0 (by decide)
      rfl rfl
  · exact (C7_amended [] (fun _ => false) [] []).2.2.2.1 0 0 2 (by decide)
      rfl rfl
  · exact (C7_amended [] (fun _ => false) [] []).2.2.2.2.1 1 1 0
      (Or.inl (by decide)) (Or.inl (by decide))
  · exact (C7_amended [] (fun _ => false) [] []).2.2.2.2.2.1 3 0 0 rfl rfl


/-- Concrete workers and initial queue files for the two-worker scenario. -/
def workerA : Worker := mkWorker "a".toList "A".toList "Resolved".toList

def workerB : Worker := mkWorker "b".toList "B".toList "Resolved".toList

def qf0 : QFiles :=
  ⟨[⟨"a".toList, "A".toList⟩, ⟨"b".toList, "B".toList⟩], []⟩

/-- Claim C8 (counterexample).  The claim states the read-modify-write
sequence over the queue files is guarded by a single mutex, so two
concurrent workers completing different documents always leave both
entries in `completed.json` exactly once.  The code takes no lock around
the queue update: under the interleaving where both workers read
`completed.json` before either writes it, worker A's completion is lost —
the final file holds only worker B's entry. -/
theorem C8_counterexample :
    ((runSched [true, true, false, false, true, false, true, false]
        workerA workerB qf0).completed.map (fun e2 => e2.id) =
      ["b".toList]) ∧
    ((runSched [true, true, false, false, true, false, true, false]
        workerA workerB qf0).completed.countP
        (fun e2 => e2.id = "a".toList) = 0) := by decide

/-- Claim C8 (amended).  Each individual queue-file write is atomic
(write-temp-then-rename), but no mutex guards the four-step
read-filter-read-append sequence.  When the two completions do not
interleave — one worker's four steps run entirely before the other's —
the final `completed` file contains both entries exactly once (in
completion order) and `unfinished` contains neither. -/
theorem C8_amended (ida idb ta tb sa sb : List Char) (h : ida ≠ idb) :
    (((runSched [true, true, true, true, false, false, false, false]
        (mkWorker ida ta sa) (mkWorker idb tb sb)
        ⟨[⟨ida, ta⟩, ⟨idb, tb⟩], []⟩).unfinished = []) ∧
     ((runSched [true, true, true, true, false, false, false, false]
        (mkWorker ida ta sa) (mkWorker idb tb sb)
        ⟨[⟨ida, ta⟩, ⟨idb, tb⟩], []⟩).completed.map (fun e2 => e2.id) =
       [ida, idb])) ∧
    (((runSched [false, false, false, false, true, true, true, true]
        (mkWorker ida ta sa) (mkWorker idb tb sb)
        ⟨[⟨ida, ta⟩, ⟨idb, tb⟩], []⟩).unfinished = []) ∧
     ((runSched [false, false, false, false, true, true, true, true]
        (mkWorker ida ta sa) (mkWorker idb tb sb)
        ⟨[⟨ida, ta⟩, ⟨idb, tb⟩], []⟩).completed.map (fun e2 => e2.id) =
       [idb, ida])) := by
  have hba : idb ≠ ida := fun hh => h hh.symm
  refine ⟨⟨?_, ?_⟩, ⟨?_, ?_⟩⟩ <;>
    simp [runSched, wstep, mkWorker, List.filter, h, hba]

/-- Witness for C8 (amended) at the concrete documents `a` and `b`. -/
theorem C8_amended_witness :
    "a".toList ≠ "b".toList ∧
    ((runSched [true, true, true, true, false, false, false, false]
        (mkWorker "a".toList "A".toList "Resolved".toList)
        (mkWorker "b".toList "B".toList "Resolved".toList)
        ⟨[⟨"a".toList, "A".toList⟩, ⟨"b".toList, "B".toList⟩],
         []⟩).completed.map (fun e2 => e2.id) =
      ["a".toList, "b".toList]) := by
  refine ⟨by decide, ?_⟩
  exact ((C8_amended "a".toList "b".toList "A".toList "B".toList
    "Resolved".toList "Resolved".toList (by decide)).1).2


/-- Claim C9 (counterexample).  The claim states a reference whose span
index no longer matches the container is "skipped and reported as
Unresolved".  The code does skip it (a bare `continue`; the returned
outcome carries no review rows and no update), but nothing re-reports it:
the reference keeps its match-phase classification — here `resolved`, so
it is still counted as matched even though the rewrite never happened. -/
theorem C9_counterexample :
    (processElement [mkText "hello".toList dAnn] 5 [refX]
        [("x".toList, some "d1".toList)] [] [] =
      ElemResult.skippedMalformed) ∧
    ((classifyRef (buildIndex [("d1".toList, some "X".toList)])
        (fun _ => true) [] "X".toList).1 =
      MatchOutcome.resolved "d1".toList) ∧
    (∀ (rt : List RichElem) (rows : List (LinkReference × List Char)),
      ElemResult.skippedMalformed ≠ ElemResult.updated rt rows) := by
  refine ⟨by decide, by decide, ?_⟩
  intro rt rows hh
  exact ElemResult.noConfusion hh

/-- Claim C9 (amended).  A reference whose recorded span index is out of
range, or whose addressed element is no longer a text element, is skipped
by the per-element rewrite step (`continue`): no update is issued, no
review row is produced, and the worker does not crash; likewise
`create_updated_rich_text` returns the original array unchanged on an
out-of-range index.  The reference is not re-reported as Unresolved — its
match-phase classification stands. -/
theorem C9_amended
    (richText : List RichElem) (rtIndex : Nat)
    (elementRefs : List LinkReference)
    (lookup : List (List Char × Option (List Char)))
    (pageAmbig pageInvalid : List LinkReference)
    (orig : List RichElem) (ref : LinkReference)
    (target : Option (List Char)) :
    (richText.length ≤ rtIndex →
      processElement richText rtIndex elementRefs lookup pageAmbig
        pageInvalid = ElemResult.skippedMalformed)
  ∧ (∀ e, richText[rtIndex]? = some e → (∀ t, e ≠ RichElem.text t) →
      processElement richText rtIndex elementRefs lookup pageAmbig
        pageInvalid = ElemResult.skippedMalformed)
  ∧ (orig.length ≤ ref.richTextIndex →
      createUpdatedRichText orig ref target = orig) := by
  refine ⟨?_, ?_, ?_⟩
  · intro h
    rw [processElement, if_pos (Or.inr h)]
  · intro e he hne
    have hlt : rtIndex < richText.length := by
      by_contra hge
      rw [List.getElem?_eq_none (by omega)] at he
      exact Option.noConfusion he
    rw [processElement]
    rw [if_neg (by
      rintro (hh | hh)
      · subst hh
        simp at hlt
      · omega)]
    rw [he]
    cases e with
    | text t => exact absurd rfl (hne t)
    | mention p a2 => rfl
    | other g a2 => rfl
  · intro h
    rw [createUpdatedRichText, if_pos h]

/-- Witness for C9 (amended): an out-of-range index and a mention element
are both skipped, and `create_updated_rich_text` leaves the array
unchanged on an out-of-range index. -/
theorem C9_amended_witness :
    (processElement [mkText "hi".toList dAnn] 3 [] [] [] [] =
      ElemResult.skippedMalformed) ∧
    (processElement [RichElem.mention "m".toList dAnn] 0 [] [] [] [] =
      ElemResult.skippedMalformed) ∧
    (createUpdatedRichText [] refX none = []) := by
  refine ⟨?_, ?_, ?_⟩
  · exact (C9_amended [mkText "hi".toList dAnn] 3 [] [] [] [] [] refX
      none).1 (by decide)
  · exact (C9_amended [RichElem.mention "m".toList dAnn] 0 [] [] [] [] []
      refX none).2.1 (RichElem.mention "m".toList dAnn) (by decide)
      (fun t hh => RichElem.noConfusion hh)
  · exact (C9_amended [] 0 [] [] [] [] [] refX none).2.2 (by decide)


/-- Claim C10 (confirmed).  When the canonical snapshot file exists it is
loaded and used verbatim as the registry — the duplicate/blank purge, the
maintenance-title exclusion and the sorted re-persistence run only on the
fresh-rebuild branch — so duplicate or blank titles present in a loaded
snapshot flow into matching, where any normalized-title group with more
than one candidate makes every reference with that display text
ambiguous. -/
theorem C10_snapshot_verbatim
    (snapshot fresh : List (List Char × Option (List Char)))
    (live : List Char → Bool) (cache : List (List Char × Bool))
    (t : List Char) :
    (loadOrRebuildRegistry true snapshot fresh = snapshot)
  ∧ (loadOrRebuildRegistry false snapshot fresh = cleanRegistry fresh)
  ∧ (∀ cs, indexGet (buildIndex snapshot) (norm t) = cs → 2 ≤ cs.length →
      (classifyRef (buildIndex snapshot) live cache t).1 =
        MatchOutcome.ambiguous cs) := by
  refine ⟨?_, ?_, ?_⟩
  · rw [loadOrRebuildRegistry, if_pos rfl]
  · rw [loadOrRebuildRegistry, if_neg (by simp)]
  · intro cs h hlen
    unfold classifyRef
    rw [h]
    match cs, hlen with
    | c1 :: c2 :: rest, _ => rfl

/-- Witness for C10: a snapshot holding two pages whose titles normalize
to `alpha` (a group the rebuild purge would have removed) is used
verbatim when the canonical file exists, and a reference displaying
`Alpha` is then ambiguous with both candidates. -/
theorem C10_snapshot_verbatim_witness :
    (loadOrRebuildRegistry true
      [("d1".toList, some "Alpha".toList),
       ("d2".toList, some " alpha ".toList), ("d3".toList, none)]
      [] =
      [("d1".toList, some "Alpha".toList),
       ("d2".toList, some " alpha ".toList), ("d3".toList, none)]) ∧
    ((classifyRef (buildIndex
        [("d1".toList, some "Alpha".toList),
         ("d2".toList, some " alpha ".toList), ("d3".toList, none)])
        (fun _ => true) [] "Alpha".toList).1 =
      MatchOutcome.ambiguous
        [("d1".toList, some "Alpha".toList),
         ("d2".toList, some " alpha ".toList)]) := by
  refine ⟨?_, ?_⟩
  · exact (C10_snapshot_verbatim
      [("d1".toList, some "Alpha".toList),
       ("d2".toList, some " alpha ".toList), ("d3".toList, none)]
      [] (fun _ => true) [] "Alpha".toList).1
  · exact (C10_snapshot_verbatim
      [("d1".toList, some "Alpha".toList),
       ("d2".toList, some " alpha ".toList), ("d3".toList, none)]
      [] (fun _ => true) [] "Alpha".toList).2.2
      [("d1".toList, some "Alpha".toList),
       ("d2".toList, some " alpha ".toList)] (by decide) (by decide)

end Enex
